import Mathlib

set_option linter.unusedVariables false

/-!
Verification of the OpenArchiver incremental IMAP sync engine and OAuth2
token lifecycle manager, as a shallow embedding of the TypeScript source
(`ImapConnector`, `OAuthService`, `OAuthController`, and the in-memory PKCE
session store).

Conventions used throughout:
- JS numbers holding timestamps, UIDs and delays are modelled as `Nat`
  (all values in the source are non-negative integers; `Date.now()` is in
  milliseconds).
- Fallible operations (thrown JS errors) are modelled with `Except String`
  or `Option String`, the `String` being the error message.
- External library calls (the IMAP server, `axios.post` to the token
  endpoint, `crypto.createHash('sha256')`, `CryptoService.encrypt`) are
  modelled as explicit parameters supplying their observable behaviour.
- Node `string`s are modelled as Lean `String`s; where character-level
  reasoning is needed (base64url), as `List Char` / `List Nat` (bytes).
-/

deriving instance DecidableEq for Except

/-- A raw message as returned by the IMAP server for a UID-range fetch
(`client.fetch({uid: "s:e"}, {envelope, source, bodyStructure, uid})`).
`hasEnvelope` / `hasSource` model the truthiness of `msg.envelope` /
`msg.source`; `parseError` is `some e` when `parseMessage` (i.e.
`simpleParser` on the raw source) would throw an error with message `e`,
and `none` when parsing succeeds. -/
structure ImapMessage where
  uid : Nat
  hasEnvelope : Bool
  hasSource : Bool
  parseError : Option String
deriving DecidableEq

namespace ImapConnector

/-- The `newMaxUids` update of the fetch loop:
`if (msg.uid > this.newMaxUids[mailboxPath]) this.newMaxUids[mailboxPath] = msg.uid`. -/
def maxStep (a u : Nat) : Nat := if a < u then u else a

/-- The body of the `for await (const msg of this.client.fetch(...))` loop of
`fetchEmails`, for a single message. State is `(newMaxUids[mailboxPath],
uids yielded so far)`. Returns the new state and `some e` when the message
failed to parse (the generator rethrows the parse error). Mirrors, in order:
the `if (lastUid && msg.uid <= lastUid) continue` guard, the
`if (msg.uid > this.newMaxUids[mailboxPath])` update, and the
`if (msg.envelope && msg.source)` guard around `yield parseMessage(...)`. -/
def processMsg (lastUid : Nat) (st : Nat × List Nat) (m : ImapMessage) :
    (Nat × List Nat) × Option String :=
  if lastUid ≠ 0 ∧ m.uid ≤ lastUid then (st, none)
  else
    let newMax := maxStep st.1 m.uid
    if m.hasEnvelope && m.hasSource then
      match m.parseError with
      | none => ((newMax, st.2 ++ [m.uid]), none)
      | some e => ((newMax, st.2), some e)
    else ((newMax, st.2), none)

/-- Processing of the sequence of messages one `client.fetch` returns for a
batch, stopping at the first parse error (the thrown error aborts the
`for await` loop). -/
def processMsgs (lastUid : Nat) (st : Nat × List Nat) :
    List ImapMessage → (Nat × List Nat) × Option String
  | [] => (st, none)
  | m :: rest =>
    match processMsg lastUid st m with
    | (st', none) => processMsgs lastUid st' rest
    | (st', some e) => (st', some e)

/-- The IMAP server's answer to a UID-range fetch `uid: "s:e"`: the messages
of the mailbox whose UID lies in `[s, e]`, in mailbox order. `mbox` is the
mailbox content in mailbox (ascending-UID) order. -/
def fetchRange (mbox : List ImapMessage) (s e : Nat) : List ImapMessage :=
  mbox.filter (fun m => decide (s ≤ m.uid) && decide (m.uid ≤ e))

/-- `const BATCH_SIZE = 250` of `fetchEmails`. -/
def BATCH_SIZE : Nat := 250

/-- The `while (startUid <= maxUidToFetch)` batch loop of `fetchEmails`.
`fuel` is a structural termination measure: the caller passes
`maxUidToFetch - lastUid`, which is an upper bound on the number of
iterations because every iteration advances `startUid` by at least one
(`endUid + 1 > startUid`); the `fuel = 0` case is then only reached with
`startUid > maxUidToFetch`, where the loop exits anyway. -/
def batchLoop (mbox : List ImapMessage) (lastUid maxUidToFetch : Nat) :
    Nat → Nat → Nat × List Nat → (Nat × List Nat) × Option String
  | 0, _, st => (st, none)
  | fuel + 1, startUid, st =>
    if startUid ≤ maxUidToFetch then
      let endUid := min (startUid + BATCH_SIZE - 1) maxUidToFetch
      match processMsgs lastUid st (fetchRange mbox startUid endUid) with
      | (st', none) => batchLoop mbox lastUid maxUidToFetch fuel (endUid + 1) st'
      | (st', some e) => (st', some e)
    else (st, none)

/-- The UIDs of the messages of `mbox` lying in `[s, e]`, in mailbox order
(the fetch set the statements below are phrased with). -/
def uidsIn (mbox : List ImapMessage) (s e : Nat) : List Nat :=
  (mbox.map ImapMessage.uid).filter (fun u => decide (s ≤ u) && decide (u ≤ e))

/-- `currentMaxUid` as computed at the start of a mailbox sync: initialized
to `lastUid || 0`, then raised to the UID of the last message of the mailbox
(`fetchOne(String(mailbox.exists), {uid: true})`) when the mailbox is
non-empty and that UID is larger. -/
def currentMaxOf (mbox : List ImapMessage) (lastUid : Nat) : Nat :=
  match mbox.getLast? with
  | some m => if lastUid < m.uid then m.uid else lastUid
  | none => lastUid

/-- One mailbox's inner sync (the body of the per-mailbox `try` block of
`fetchEmails` after `mailboxOpen` succeeded): computes `currentMaxUid`,
initializes `newMaxUids[mailboxPath]` to `lastUid || 0`, and if the mailbox
is non-empty runs the batch loop over `(lastUid, currentMaxUid]`.
`lastUid = 0` models an absent sync-state entry (`lastUid || 0`).
Returns `((newMaxUids entry, yielded uids in order), parse error?)`. -/
def syncMailbox (mbox : List ImapMessage) (lastUid : Nat) :
    (Nat × List Nat) × Option String :=
  let currentMaxUid := currentMaxOf mbox lastUid
  if 0 < mbox.length then
    batchLoop mbox lastUid currentMaxUid (currentMaxUid - lastUid) (lastUid + 1) (lastUid, [])
  else ((lastUid, []), none)

/-- Instrumentation of exactly the loop of `batchLoop`: the messages
actually returned by the fetch calls it issues. Each iteration requests
`fetchRange mbox startUid endUid`; after a clean batch the loop continues
with the next range, and on a parse error the aborting batch is the last
one fetched — the ranges beyond it are never requested. -/
def batchLoopFetched (mbox : List ImapMessage) (lastUid maxUidToFetch : Nat) :
    Nat → Nat → Nat × List Nat → List ImapMessage
  | 0, _, _ => []
  | fuel + 1, startUid, st =>
    if startUid ≤ maxUidToFetch then
      let endUid := min (startUid + BATCH_SIZE - 1) maxUidToFetch
      match processMsgs lastUid st (fetchRange mbox startUid endUid) with
      | (st', none) =>
        fetchRange mbox startUid endUid ++
          batchLoopFetched mbox lastUid maxUidToFetch fuel (endUid + 1) st'
      | (_, some _) => fetchRange mbox startUid endUid
    else []

/-- The messages actually fetched during `syncMailbox mbox lastUid`: the
union, in order, of the batch ranges requested before the cycle completed
or aborted on a parse error. -/
def syncMailboxFetched (mbox : List ImapMessage) (lastUid : Nat) : List ImapMessage :=
  let currentMaxUid := currentMaxOf mbox lastUid
  if 0 < mbox.length then
    batchLoopFetched mbox lastUid currentMaxUid (currentMaxUid - lastUid) (lastUid + 1)
      (lastUid, [])
  else []

/-- Assignment `this.newMaxUids[mailboxPath] = v` on the JS object modelled
as an association list. -/
def upsert : List (String × Nat) → String → Nat → List (String × Nat)
  | [], k, v => [(k, v)]
  | (k', v') :: rest, k, v =>
    if k' == k then (k, v) :: rest else (k', v') :: upsert rest k v

/-- Mutable per-cycle state of the connector: `this.newMaxUids` and
`this.statusMessage`. -/
structure EngineState where
  newMaxUids : List (String × Nat)
  statusMessage : Option String
deriving DecidableEq

/-- The `SyncState` returned by `getUpdatedSyncState`. -/
structure SyncState where
  imap : List (String × Nat)
  statusMessage : Option String
deriving DecidableEq

/-- The string the mailbox-level `catch` of `fetchEmails` looks for with
`err.message.includes(...)`. -/
def retryExhaustedMarker : String := "IMAP operation failed after all retries"

/-- The status note `fetchEmails` writes to `this.statusMessage`. -/
def statusNote : String :=
  "Sync paused due to reaching the mail server rate limit. The process will automatically resume later."

/-- `a` is a leading segment of `b` (character lists). -/
def leadsList : List Char → List Char → Bool
  | [], _ => true
  | _ :: _, [] => false
  | a :: as, b :: bs => a == b && leadsList as bs

/-- JS `String.prototype.includes`: `occursIn pat s` holds when `pat` occurs
contiguously inside `s`. -/
def occursIn (pat : List Char) : List Char → Bool
  | [] => pat.isEmpty
  | c :: rest => leadsList pat (c :: rest) || occursIn pat rest

/-- The condition of the mailbox-level `catch`:
`err.message.includes('IMAP operation failed after all retries')`. -/
def errorTriggersNote (emsg : String) : Bool :=
  occursIn retryExhaustedMarker.data emsg.data

/-- One mailbox's slice of a sync cycle, as seen by the mailbox loop of
`fetchEmails`: its path, its `syncState?.imap?.[path]?.maxUid` (0 when
absent) and the outcome of the `withRetry`-wrapped `mailboxOpen` (plus the
unwrapped `fetchOne`): `.ok content` on success, `.error msg` carrying the
message of the error that `withRetry` propagated after exhausting retries
(or that `fetchOne` threw). -/
structure MailboxRun where
  path : String
  lastUid : Nat
  openResult : Except String (List ImapMessage)

/-- The per-mailbox `try ... catch` of the mailbox loop of `fetchEmails`:
on an open failure the error is caught and `statusMessage` is set only when
its message contains `retryExhaustedMarker`; on success the inner sync runs,
`newMaxUids[path]` receives the tracked maximum, and a parse error (which
aborts the mailbox) is caught under the same condition. Returns the new
engine state and the uids yielded for this mailbox. -/
def processMailboxRun (st : EngineState) (mb : MailboxRun) : EngineState × List Nat :=
  match mb.openResult with
  | .error emsg =>
    ({ st with statusMessage :=
        if errorTriggersNote emsg then some statusNote else st.statusMessage }, [])
  | .ok mbox =>
    let res := syncMailbox mbox mb.lastUid
    ({ newMaxUids := upsert st.newMaxUids mb.path res.1.1,
       statusMessage :=
         match res.2 with
         | some emsg => if errorTriggersNote emsg then some statusNote else st.statusMessage
         | none => st.statusMessage },
     res.1.2)

/-- The `for (const mailboxInfo of processableMailboxes)` loop of
`fetchEmails`: mailboxes are processed strictly in enumeration order, each
to completion (or isolated failure) before the next. Returns the final
engine state and, per mailbox in order, the uids yielded for it. -/
def runMailboxes : EngineState → List MailboxRun → EngineState × List (String × List Nat)
  | st, [] => (st, [])
  | st, mb :: rest =>
    let step := processMailboxRun st mb
    let tail := runMailboxes step.1 rest
    (tail.1, (mb.path, step.2) :: tail.2)

/-- `ImapConnector.getUpdatedSyncState`: copies `newMaxUids` into the
returned `SyncState` and attaches `statusMessage` when set. -/
def getUpdatedSyncState (st : EngineState) : SyncState :=
  { imap := st.newMaxUids, statusMessage := st.statusMessage }

/-- `ImapConnector.withRetry` body: `remaining` is structural fuel equal to
`maxRetries - attempt + 1`; when it reaches 0 the `for` loop has ended
without returning, which is the source's "unreachable" final `throw`.
`outcome n` is the (connect + action) result of attempt `n`; `jitter n` is
`Math.random() * 1000` drawn before retry `n`, in ms. The second component
collects the backoff delays actually waited, in order. -/
def withRetryGo {α : Type} (outcome : Nat → Except String α) (jitter : Nat → Nat)
    (maxRetries : Nat) :
    Nat → Nat → List Nat → Except String α × List Nat
  | 0, _, delays => (.error "IMAP operation failed after all retries.", delays)
  | r + 1, attempt, delays =>
    match outcome attempt with
    | .ok a => (.ok a, delays)
    | .error e =>
      if attempt = maxRetries then (.error e, delays)
      else withRetryGo outcome jitter maxRetries r (attempt + 1)
        (delays ++ [2 ^ attempt * 1000 + jitter attempt])

/-- `ImapConnector.withRetry(action, maxRetries = 5)`: attempts run from 1
to `maxRetries`; after a failed non-final attempt it waits
`2 ^ attempt * 1000 + jitter attempt` milliseconds; the final attempt's
error is rethrown as-is. -/
def withRetry {α : Type} (outcome : Nat → Except String α) (jitter : Nat → Nat)
    (maxRetries : Nat) : Except String α × List Nat :=
  withRetryGo outcome jitter maxRetries maxRetries 1 []

end ImapConnector

/-! ## PKCE session store (oauth.controller.ts)

The module-level `pkceSessionStore : Map<string, PKCESession>` with its
`setInterval` sweep. Times are in milliseconds (`Date.now()`). -/

namespace PkceStore

/-- The `PKCESession` interface of `oauth.controller.ts`. -/
structure PKCESession where
  codeVerifier : String
  state : String
  timestamp : Nat
deriving DecidableEq

/-- The sweep interval and the session time-to-live, both
`10 * 60 * 1000` ms in the source. -/
def SWEEP_INTERVAL : Nat := 10 * 60 * 1000

/-- Sessions older than `TTL` are removed by a sweep tick. -/
def TTL : Nat := 10 * 60 * 1000

/-- One tick of the `setInterval` sweep at time `now`: deletes every entry
with `now - session.timestamp > 10 * 60 * 1000`, i.e. keeps an entry iff
`now - timestamp ≤ TTL` (truncated `Nat` subtraction agrees with the JS
comparison since a negative JS difference is never `> TTL`). -/
def sweepOnce (now : Nat) (store : List (String × PKCESession)) :
    List (String × PKCESession) :=
  store.filter (fun kv => decide (now - kv.2.timestamp ≤ TTL))

/-- The sweep tick times that occur up to `now`, for a timer whose first
tick fires at `phi` and every `SWEEP_INTERVAL` thereafter. -/
def sweepTicks (phi now : Nat) : List Nat :=
  ((List.range (now / SWEEP_INTERVAL + 1)).map (fun k => phi + k * SWEEP_INTERVAL)).filter
    (fun t => decide (t ≤ now))

/-- The store at time `now`, for a single pending authorization put at time
`T` under key `state` (as `startOutlookAuth` does) and never consumed, after
all sweep ticks up to `now` have run. -/
def storeAtTime (phi T now : Nat) (state verifier : String) :
    List (String × PKCESession) :=
  (sweepTicks phi now).foldl (fun store t => sweepOnce t store)
    [(state, ⟨verifier, state, T⟩)]

/-- `handleOutlookCallback`'s lookup `pkceSessionStore.get(state)` performed
at time `now`: note the source checks only presence, not age. -/
def callbackLookup (phi T now : Nat) (state verifier : String) : Option PKCESession :=
  (storeAtTime phi T now state verifier).lookup state

end PkceStore

/-! ## OAuthService (part_005) -/

/-- One row of the `oauth_tokens` table (schema in the migration and
`OAuthToken` in `@open-archiver/types`). `accessToken` / `refreshToken`
hold the values as stored (encrypted at rest). Timestamps in ms. -/
structure OAuthTokenRow where
  id : String
  userId : String
  provider : String
  email : String
  accessToken : String
  refreshToken : Option String
  expiresAt : Option Nat
  scope : Option String
  createdAt : Nat
  updatedAt : Nat
deriving DecidableEq

/-- The `oauth_tokens` table. -/
abbrev TokenDB := List OAuthTokenRow

/-- The provider's JSON answer from the token endpoint
(`OAuthTokenResponse`): `{access_token, refresh_token?, expires_in, scope?}`.
`expires_in` is in seconds. -/
structure OAuthTokenResponse where
  access_token : String
  refresh_token : Option String
  expires_in : Nat
  scope : Option String
deriving DecidableEq

namespace OAuthService

/-- `db.select().from(oauthTokens).where(eq(oauthTokens.id, tid)).limit(1)`. -/
def dbSelect (db : TokenDB) (tid : String) : Option OAuthTokenRow :=
  db.find? (fun r => r.id == tid)

/-- `db.update(oauthTokens).set(...).where(eq(oauthTokens.id, tid))`. -/
def dbUpdate (db : TokenDB) (tid : String) (f : OAuthTokenRow → OAuthTokenRow) : TokenDB :=
  db.map (fun r => if r.id == tid then f r else r)

/-- `OAuthService.refreshToken(tokenId)`. `encrypt` models
`CryptoService.encrypt`; `providerResp` models the outcome of the
`axios.post` refresh-grant call (`.error` when the provider rejects the
grant or the network fails); `now` is `Date.now()`. Returns the thrown
error or the `.returning()` row, together with the resulting table state
(unchanged on every error path — the `db.update` runs only after a
successful provider response). -/
def refreshToken (encrypt : String → String) (db : TokenDB) (tid : String)
    (providerResp : Except String OAuthTokenResponse) (now : Nat) :
    Except String OAuthTokenRow × TokenDB :=
  match dbSelect db tid with
  | none => (.error "OAuth token not found", db)
  | some token =>
    match token.refreshToken with
    | none => (.error "No refresh token available", db)
    | some _ =>
      if token.provider = "microsoft" then
        match providerResp with
        | .error _ => (.error "Failed to refresh OAuth token", db)
        | .ok resp =>
          let update : OAuthTokenRow → OAuthTokenRow := fun r =>
            { r with
              accessToken := encrypt resp.access_token
              refreshToken :=
                match resp.refresh_token with
                | some rt => some (encrypt rt)
                | none => token.refreshToken
              expiresAt := some (now + resp.expires_in * 1000)
              updatedAt := now }
          (.ok (update token), dbUpdate db tid update)
      else (.error ("Unsupported OAuth provider: " ++ token.provider), db)

/-- `OAuthService.storeToken(userId, provider, email, tokenResponse)`:
encrypts the tokens and inserts a fresh row (`newId` models the generated
uuid, `now` models `Date.now()`). Returns the new table and the
`.returning()` row. -/
def storeToken (encrypt : String → String) (db : TokenDB)
    (userId provider email : String) (tokenResponse : OAuthTokenResponse)
    (now : Nat) (newId : String) : TokenDB × OAuthTokenRow :=
  let row : OAuthTokenRow :=
    { id := newId
      userId := userId
      provider := provider
      email := email
      accessToken := encrypt tokenResponse.access_token
      refreshToken :=
        match tokenResponse.refresh_token with
        | some rt => some (encrypt rt)
        | none => none
      expiresAt := some (now + tokenResponse.expires_in * 1000)
      scope := tokenResponse.scope
      createdAt := now
      updatedAt := now }
  (db ++ [row], row)

/-- `OAuthService.listUserTokens(userId)`. -/
def listUserTokens (db : TokenDB) (userId : String) : List OAuthTokenRow :=
  db.filter (fun r => r.userId == userId)

/-- `OAuthService.deleteToken(tokenId)`:
`db.delete(oauthTokens).where(eq(oauthTokens.id, tokenId))`. -/
def deleteToken (db : TokenDB) (tokenId : String) : TokenDB :=
  db.filter (fun r => !(r.id == tokenId))

end OAuthService

/-! ## OAuth controller (oauth.controller.ts) -/

/-- The authenticated caller injected by the auth layer (`req.user`). -/
structure AuthedUser where
  id : String
  email : String
deriving DecidableEq

/-- The shape `listTokens` maps each row to before responding: metadata
only — the structure has no access-token or refresh-token field at all. -/
structure SanitizedToken where
  id : String
  provider : String
  email : String
  expiresAt : Option Nat
  scope : Option String
  createdAt : Nat
  updatedAt : Nat
deriving DecidableEq

namespace OAuthController

/-- The per-row map of `listTokens`. -/
def sanitizeToken (t : OAuthTokenRow) : SanitizedToken :=
  { id := t.id
    provider := t.provider
    email := t.email
    expiresAt := t.expiresAt
    scope := t.scope
    createdAt := t.createdAt
    updatedAt := t.updatedAt }

/-- `OAuthController.listTokens`: 401 when unauthenticated, otherwise the
sanitized metadata of the caller's rows. -/
def listTokens (user : Option AuthedUser) (db : TokenDB) :
    Nat × List SanitizedToken :=
  match user with
  | none => (401, [])
  | some u => (200, (OAuthService.listUserTokens db u.id).map sanitizeToken)

/-- `OAuthController.deleteToken`: checks only that a caller is
authenticated (`req.user?.id`), then deletes by `tokenId` — the token's
`userId` is never compared to the caller. Returns (status, new table). -/
def deleteToken (user : Option AuthedUser) (tokenId : String) (db : TokenDB) :
    Nat × TokenDB :=
  match user with
  | none => (401, db)
  | some _ => (200, OAuthService.deleteToken db tokenId)

end OAuthController

/-! ## PKCE generation (OAuthService.generatePKCE) -/

/-- The base64url alphabet, as used by Node's `base64url` encoding. -/
def b64Alphabet : List Char :=
  "ABCDEFGHIJKLMNOPQRSTUVWXYZabcdefghijklmnopqrstuvwxyz0123456789-_".data

/-- The digit-to-character map of base64url. -/
def b64Char (n : Nat) : Char := b64Alphabet.getD n '_'

/-- Node `Buffer.toString('base64url')`: groups of 3 bytes become 4
characters; a trailing byte becomes 2 characters and two trailing bytes
become 3 (no padding). -/
def base64urlEncode : List Nat → List Char
  | [] => []
  | [b1] => [b64Char (b1 / 4), b64Char (b1 % 4 * 16)]
  | [b1, b2] =>
    [b64Char (b1 / 4), b64Char (b1 % 4 * 16 + b2 / 16), b64Char (b2 % 16 * 4)]
  | b1 :: b2 :: b3 :: rest =>
    b64Char (b1 / 4) :: b64Char (b1 % 4 * 16 + b2 / 16) ::
    b64Char (b2 % 16 * 4 + b3 / 64) :: b64Char (b3 % 64) :: base64urlEncode rest

/-- The value of a base64url character (inverse of `b64Char` on the
alphabet). -/
def b64Val (c : Char) : Nat :=
  if 65 ≤ c.toNat ∧ c.toNat ≤ 90 then c.toNat - 65
  else if 97 ≤ c.toNat ∧ c.toNat ≤ 122 then c.toNat - 97 + 26
  else if 48 ≤ c.toNat ∧ c.toNat ≤ 57 then c.toNat - 48 + 52
  else if c = '-' then 62
  else 63

/-- base64url decoding (on well-formed encodings), used to state that the
encoding loses no entropy. -/
def base64urlDecode : List Char → List Nat
  | [] => []
  | [_] => []
  | [c1, c2] => [b64Val c1 * 4 + b64Val c2 / 16]
  | [c1, c2, c3] =>
    [b64Val c1 * 4 + b64Val c2 / 16, b64Val c2 % 16 * 16 + b64Val c3 / 4]
  | c1 :: c2 :: c3 :: c4 :: rest =>
    (b64Val c1 * 4 + b64Val c2 / 16) ::
    (b64Val c2 % 16 * 16 + b64Val c3 / 4) ::
    (b64Val c3 % 4 * 64 + b64Val c4) :: base64urlDecode rest

/-- URL-safe character: unreserved alphanumerics plus `-` and `_`. -/
abbrev urlSafeChar (c : Char) : Prop :=
  (65 ≤ c.toNat ∧ c.toNat ≤ 90) ∨ (97 ≤ c.toNat ∧ c.toNat ≤ 122) ∨
  (48 ≤ c.toNat ∧ c.toNat ≤ 57) ∨ c = '-' ∨ c = '_'

/-- The `PKCEChallenge` interface of `@open-archiver/types`; strings are
modelled as character lists. -/
structure PKCEChallenge where
  codeVerifier : List Char
  codeChallenge : List Char
  codeChallengeMethod : String

/-- `OAuthService.generatePKCE()`: `randomBytes` models the 32 bytes drawn
from `crypto.randomBytes(32)`; `sha256` models
`crypto.createHash('sha256').update(verifier).digest()`, the 32-byte SHA-256
digest of a string. The verifier is the base64url encoding of the random
bytes, the challenge the base64url encoding of the digest of the verifier,
the method `'S256'`. -/
def generatePKCE (randomBytes : List Nat) (sha256 : List Char → List Nat) :
    PKCEChallenge :=
  let codeVerifier := base64urlEncode randomBytes
  { codeVerifier := codeVerifier
    codeChallenge := base64urlEncode (sha256 codeVerifier)
    codeChallengeMethod := "S256" }

/-! ## Lemmas about the sync engine -/

namespace ImapConnector

lemma map_uid_filter (mbox : List ImapMessage) (q : Nat → Bool) :
    (mbox.filter (fun m => q m.uid)).map ImapMessage.uid =
      (mbox.map ImapMessage.uid).filter q := by
  induction mbox with
  | nil => simp
  | cons m t ih => by_cases h : q m.uid <;> simp [List.filter_cons, h, ih]

lemma map_uid_fetchRange (mbox : List ImapMessage) (s e : Nat) :
    (fetchRange mbox s e).map ImapMessage.uid = uidsIn mbox s e :=
  map_uid_filter mbox (fun u => decide (s ≤ u) && decide (u ≤ e))

lemma processMsgs_happy (lastUid : Nat) (msgs : List ImapMessage) :
    ∀ (st : Nat × List Nat),
      (∀ m ∈ msgs, m.hasEnvelope = true ∧ m.hasSource = true ∧
        m.parseError = none ∧ lastUid < m.uid) →
      processMsgs lastUid st msgs =
        ((List.foldl maxStep st.1 (msgs.map ImapMessage.uid),
          st.2 ++ msgs.map ImapMessage.uid), none) := by
  induction msgs with
  | nil => intro st _; simp [processMsgs]
  | cons m rest ih =>
    intro st h
    obtain ⟨he, hso, hp, hu⟩ := h m (List.mem_cons_self _ _)
    have hrest : ∀ x ∈ rest, x.hasEnvelope = true ∧ x.hasSource = true ∧
        x.parseError = none ∧ lastUid < x.uid :=
      fun x hx => h x (List.mem_cons_of_mem _ hx)
    have hskip : ¬(lastUid ≠ 0 ∧ m.uid ≤ lastUid) := by omega
    simp only [processMsgs, processMsg, if_neg hskip, he, hso, hp, Bool.and_self,
      if_pos]
    rw [ih _ hrest]
    simp

end ImapConnector

namespace ImapConnector

lemma le_foldl_maxStep (l : List Nat) : ∀ a, a ≤ List.foldl maxStep a l := by
  induction l with
  | nil => intro a; simp
  | cons x t ih =>
    intro a
    have h1 : a ≤ maxStep a x := by unfold maxStep; split <;> omega
    exact le_trans h1 (ih _)

lemma mem_le_foldl_maxStep (l : List Nat) : ∀ a x, x ∈ l → x ≤ List.foldl maxStep a l := by
  induction l with
  | nil => simp
  | cons y t ih =>
    intro a x hx
    rcases List.mem_cons.mp hx with h | h
    · subst h
      have h1 : x ≤ maxStep a x := by unfold maxStep; split <;> omega
      exact le_trans h1 (le_foldl_maxStep t _)
    · exact ih _ x h

lemma foldl_maxStep_le (l : List Nat) :
    ∀ a b, a ≤ b → (∀ x ∈ l, x ≤ b) → List.foldl maxStep a l ≤ b := by
  induction l with
  | nil => intro a b h _; simpa
  | cons y t ih =>
    intro a b h hall
    simp only [List.foldl_cons]
    have hy := hall y (List.mem_cons_self _ _)
    apply ih _ _ (by unfold maxStep; split <;> omega)
    exact fun x hx => hall x (List.mem_cons_of_mem _ hx)

lemma sorted_le_of_getLast? (l : List Nat) :
    l.Pairwise (· < ·) → ∀ b, l.getLast? = some b → ∀ x ∈ l, x ≤ b := by
  induction l with
  | nil => intro _ b hb; simp at hb
  | cons a t ih =>
    intro hl b hb x hx
    cases t with
    | nil =>
      simp at hb hx
      omega
    | cons c u =>
      rw [List.getLast?_cons_cons] at hb
      have hpc := List.pairwise_cons.mp hl
      have htail := ih hpc.2 b hb
      rcases List.mem_cons.mp hx with h | h
      · subst h
        have hac : x < c := hpc.1 c (List.mem_cons_self _ _)
        have hcb : c ≤ b := htail c (List.mem_cons_self _ _)
        omega
      · exact htail x h

lemma filter_interval_append (l : List Nat) (hl : l.Pairwise (· < ·)) (s e m : Nat)
    (h1 : s ≤ e + 1) (h2 : e ≤ m) :
    l.filter (fun u => decide (s ≤ u) && decide (u ≤ e)) ++
      l.filter (fun u => decide (e + 1 ≤ u) && decide (u ≤ m)) =
    l.filter (fun u => decide (s ≤ u) && decide (u ≤ m)) := by
  induction l with
  | nil => simp
  | cons a t ih =>
    have hpc := List.pairwise_cons.mp hl
    have ha : ∀ x ∈ t, a < x := hpc.1
    have iht := ih hpc.2
    by_cases h1a : s ≤ a <;> by_cases h2a : a ≤ e <;> by_cases h3a : a ≤ m
    · -- first interval
      simp only [List.filter_cons, decide_eq_true_eq]
      rw [if_pos (by simp; omega), if_neg (by simp; omega), if_pos (by simp; omega)]
      simp [iht]
    · omega
    · -- second interval: the first filter of the tail is empty
      have hf1 : t.filter (fun u => decide (s ≤ u) && decide (u ≤ e)) = [] := by
        rw [List.filter_eq_nil_iff]
        intro x hx
        have := ha x hx
        simp
        omega
      have hf23 : t.filter (fun u => decide (e + 1 ≤ u) && decide (u ≤ m)) =
          t.filter (fun u => decide (s ≤ u) && decide (u ≤ m)) := by
        apply List.filter_congr
        intro x hx
        have := ha x hx
        simp [show e + 1 ≤ x by omega, show s ≤ x by omega]
      simp only [List.filter_cons]
      rw [if_neg (by simp; omega), if_pos (by simp; omega), if_pos (by simp; omega)]
      simp [hf1, hf23]
    · -- past both intervals
      simp only [List.filter_cons]
      rw [if_neg (by simp; omega), if_neg (by simp; omega), if_neg (by simp; omega)]
      exact iht
    · -- before both intervals
      simp only [List.filter_cons]
      rw [if_neg (by simp; omega), if_neg (by simp; omega), if_neg (by simp; omega)]
      exact iht
    · omega
    · omega
    · omega

end ImapConnector


namespace ImapConnector

lemma uidsIn_empty (mbox : List ImapMessage) (s e : Nat) (h : e < s) :
    uidsIn mbox s e = [] := by
  rw [uidsIn, List.filter_eq_nil_iff]
  intro u _
  simp
  omega

lemma currentMaxOf_some {mbox : List ImapMessage} {b : ImapMessage} (lastUid : Nat)
    (h : mbox.getLast? = some b) :
    currentMaxOf mbox lastUid = if lastUid < b.uid then b.uid else lastUid := by
  rw [currentMaxOf, h]

lemma currentMaxOf_none {mbox : List ImapMessage} (lastUid : Nat)
    (h : mbox.getLast? = none) : currentMaxOf mbox lastUid = lastUid := by
  rw [currentMaxOf, h]

lemma lastUid_le_currentMaxOf (mbox : List ImapMessage) (lastUid : Nat) :
    lastUid ≤ currentMaxOf mbox lastUid := by
  cases hlast : mbox.getLast? with
  | none => rw [currentMaxOf_none lastUid hlast]
  | some b => rw [currentMaxOf_some lastUid hlast]; split <;> omega

lemma uid_le_currentMaxOf (mbox : List ImapMessage) (lastUid : Nat)
    (hs : (mbox.map ImapMessage.uid).Pairwise (· < ·)) :
    ∀ m ∈ mbox, m.uid ≤ currentMaxOf mbox lastUid := by
  intro m hm
  cases hlast : mbox.getLast? with
  | none =>
    rw [List.getLast?_eq_none_iff] at hlast
    subst hlast
    simp at hm
  | some b =>
    have hmap : (mbox.map ImapMessage.uid).getLast? = some b.uid := by
      rw [List.getLast?_map, hlast]
      rfl
    have := sorted_le_of_getLast? (mbox.map ImapMessage.uid) hs b.uid hmap m.uid
      (List.mem_map_of_mem _ hm)
    rw [currentMaxOf_some lastUid hlast]
    split <;> omega

lemma batchLoop_happy (mbox : List ImapMessage) (lastUid maxU : Nat)
    (hs : (mbox.map ImapMessage.uid).Pairwise (· < ·))
    (hh : ∀ m ∈ mbox, m.hasEnvelope = true ∧ m.hasSource = true ∧ m.parseError = none) :
    ∀ (fuel startUid : Nat) (st : Nat × List Nat),
      maxU + 1 ≤ fuel + startUid → lastUid < startUid →
      batchLoop mbox lastUid maxU fuel startUid st =
        ((List.foldl maxStep st.1 (uidsIn mbox startUid maxU),
          st.2 ++ uidsIn mbox startUid maxU), none) := by
  intro fuel
  induction fuel with
  | zero =>
    intro startUid st hle hlt
    rw [uidsIn_empty mbox _ _ (by omega)]
    simp [batchLoop]
  | succ fuel ih =>
    intro startUid st hle hlt
    by_cases hcur : startUid ≤ maxU
    · have hse : startUid ≤ min (startUid + BATCH_SIZE - 1) maxU := by
        simp only [BATCH_SIZE]
        omega
      have hem : min (startUid + BATCH_SIZE - 1) maxU ≤ maxU := min_le_right _ _
      have hmem : ∀ m ∈ fetchRange mbox startUid (min (startUid + BATCH_SIZE - 1) maxU),
          m.hasEnvelope = true ∧ m.hasSource = true ∧ m.parseError = none ∧
            lastUid < m.uid := by
        intro m hm
        obtain ⟨hm1, hm2⟩ := List.mem_filter.mp hm
        simp at hm2
        exact ⟨(hh m hm1).1, (hh m hm1).2.1, (hh m hm1).2.2, by omega⟩
      have hbatch := processMsgs_happy lastUid
        (fetchRange mbox startUid (min (startUid + BATCH_SIZE - 1) maxU)) st hmem
      rw [map_uid_fetchRange] at hbatch
      simp only [batchLoop, if_pos hcur, hbatch]
      rw [ih _ _ (by omega) (by omega)]
      have hcat := filter_interval_append (mbox.map ImapMessage.uid) hs startUid
        (min (startUid + BATCH_SIZE - 1) maxU) maxU (by omega) hem
      rw [uidsIn, uidsIn, uidsIn, ← hcat, List.foldl_append, List.append_assoc]
    · have hempty : uidsIn mbox startUid maxU = [] := uidsIn_empty mbox _ _ (by omega)
      simp [batchLoop, if_neg hcur, hempty]

/-- On a fully well-formed mailbox (ascending UIDs, every message carrying
envelope and source and parsing cleanly), one mailbox sync returns, with no
error, exactly the present UIDs in `(lastUid, currentMaxUid]` in mailbox
order, and records `currentMaxUid` as the new position. -/
lemma syncMailbox_happy (mbox : List ImapMessage) (lastUid : Nat)
    (hs : (mbox.map ImapMessage.uid).Pairwise (· < ·))
    (hh : ∀ m ∈ mbox, m.hasEnvelope = true ∧ m.hasSource = true ∧ m.parseError = none) :
    syncMailbox mbox lastUid =
      ((currentMaxOf mbox lastUid,
        uidsIn mbox (lastUid + 1) (currentMaxOf mbox lastUid)), none) := by
  by_cases hmb : mbox = []
  · subst hmb
    simp [syncMailbox, currentMaxOf, uidsIn]
  · have hne : 0 < mbox.length := by
      cases mbox with
      | nil => simp at hmb
      | cons a t => simp
    have hcmge := lastUid_le_currentMaxOf mbox lastUid
    have hloop := batchLoop_happy mbox lastUid (currentMaxOf mbox lastUid) hs hh
      (currentMaxOf mbox lastUid - lastUid) (lastUid + 1) (lastUid, [])
      (by omega) (by omega)
    rw [syncMailbox]
    simp only [if_pos hne, hloop, List.nil_append]
    have hub : ∀ x ∈ uidsIn mbox (lastUid + 1) (currentMaxOf mbox lastUid),
        x ≤ currentMaxOf mbox lastUid := by
      intro x hx
      have := (List.mem_filter.mp hx).2
      simp at this
      omega
    have hle : List.foldl maxStep lastUid
        (uidsIn mbox (lastUid + 1) (currentMaxOf mbox lastUid)) ≤
        currentMaxOf mbox lastUid :=
      foldl_maxStep_le _ _ _ hcmge hub
    have hge : currentMaxOf mbox lastUid ≤ List.foldl maxStep lastUid
        (uidsIn mbox (lastUid + 1) (currentMaxOf mbox lastUid)) := by
      cases hlast : mbox.getLast? with
      | none =>
        rw [List.getLast?_eq_none_iff] at hlast
        exact absurd hlast hmb
      | some b =>
        by_cases hlb : lastUid < b.uid
        · have hbm : b ∈ mbox := by
            rw [List.getLast?_eq_getLast mbox hmb] at hlast
            have hb2 := Option.some.inj hlast
            rw [← hb2]
            exact List.getLast_mem hmb
          have hmem : b.uid ∈ uidsIn mbox (lastUid + 1) (currentMaxOf mbox lastUid) := by
            rw [uidsIn, List.mem_filter]
            refine ⟨List.mem_map_of_mem _ hbm, ?_⟩
            have := uid_le_currentMaxOf mbox lastUid hs b hbm
            simp
            omega
          have h1 := mem_le_foldl_maxStep
            (uidsIn mbox (lastUid + 1) (currentMaxOf mbox lastUid)) lastUid b.uid hmem
          have hcmeq : currentMaxOf mbox lastUid = b.uid := by
            rw [currentMaxOf_some lastUid hlast, if_pos hlb]
          omega
        · have hcmeq : currentMaxOf mbox lastUid = lastUid := by
            rw [currentMaxOf_some lastUid hlast, if_neg hlb]
          have h1 := le_foldl_maxStep
            (uidsIn mbox (lastUid + 1) (currentMaxOf mbox lastUid)) lastUid
          omega
    have hfold : List.foldl maxStep lastUid
        (uidsIn mbox (lastUid + 1) (currentMaxOf mbox lastUid)) =
        currentMaxOf mbox lastUid := le_antisymm hle hge
    rw [hfold]

end ImapConnector

namespace ImapConnector

/-- Claim C1 (counterexample): with messages at UIDs {1, 3} and `lastUid = 0`,
`currentMax = 3`, yet fetching yields only [1, 3]: UID 2 belongs to
`{u : u > lastUid ∧ u ≤ currentMax}` but is never yielded, so the yielded
set is not exactly that interval. -/
theorem C1_counterexample :
    (syncMailbox [⟨1, true, true, none⟩, ⟨3, true, true, none⟩] 0).1.2 = [1, 3] ∧
    0 < 2 ∧ 2 ≤ currentMaxOf [⟨1, true, true, none⟩, ⟨3, true, true, none⟩] 0 ∧
    2 ∉ (syncMailbox [⟨1, true, true, none⟩, ⟨3, true, true, none⟩] 0).1.2 := by
  decide

/-- Claim C1 (amended): for every mailbox synced with a given `lastUid`,
with `currentMax` the highest UID present at the start of the sync, the set
of UIDs yielded by `fetchEmails` for that mailbox is exactly the set of
UIDs **of messages present in the mailbox** satisfying
`u > lastUid ∧ u ≤ currentMax`, each yielded exactly once, in ascending
UID order (messages assumed well-formed: envelope and source present,
parsing clean; UIDs ascending per the IMAP invariant). -/
theorem C1_fetchEmails_yield_set (mbox : List ImapMessage) (lastUid : Nat)
    (hs : (mbox.map ImapMessage.uid).Pairwise (· < ·))
    (hh : ∀ m ∈ mbox, m.hasEnvelope = true ∧ m.hasSource = true ∧ m.parseError = none) :
    (syncMailbox mbox lastUid).2 = none ∧
    (∀ u, u ∈ (syncMailbox mbox lastUid).1.2 ↔
      (u ∈ mbox.map ImapMessage.uid ∧ lastUid < u ∧ u ≤ currentMaxOf mbox lastUid)) ∧
    (syncMailbox mbox lastUid).1.2.Pairwise (· < ·) ∧
    (syncMailbox mbox lastUid).1.2.Nodup := by
  have h := syncMailbox_happy mbox lastUid hs hh
  rw [h]
  refine ⟨rfl, ?_, ?_, ?_⟩
  · intro u
    dsimp only
    rw [uidsIn, List.mem_filter]
    simp only [Bool.and_eq_true, decide_eq_true_eq]
    constructor
    · rintro ⟨h1, h2, h3⟩
      exact ⟨h1, by omega, h3⟩
    · rintro ⟨h1, h2, h3⟩
      exact ⟨h1, by omega, h3⟩
  · exact List.Pairwise.filter _ hs
  · exact ((List.Pairwise.filter _ hs).imp (fun h => Nat.ne_of_lt h))

/-- Witness for C1 at the spec's example scenario: `lastUid = 100`, messages
101–103 exist, expected output exactly 101, 102, 103. -/
theorem C1_fetchEmails_yield_set_witness :
    (syncMailbox [⟨101, true, true, none⟩, ⟨102, true, true, none⟩,
        ⟨103, true, true, none⟩] 100).2 = none ∧
    (∀ u, u ∈ (syncMailbox [⟨101, true, true, none⟩, ⟨102, true, true, none⟩,
        ⟨103, true, true, none⟩] 100).1.2 ↔
      (u ∈ ([⟨101, true, true, none⟩, ⟨102, true, true, none⟩,
        ⟨103, true, true, none⟩] : List ImapMessage).map ImapMessage.uid ∧
        100 < u ∧ u ≤ currentMaxOf [⟨101, true, true, none⟩,
          ⟨102, true, true, none⟩, ⟨103, true, true, none⟩] 100)) ∧
    (syncMailbox [⟨101, true, true, none⟩, ⟨102, true, true, none⟩,
        ⟨103, true, true, none⟩] 100).1.2.Pairwise (· < ·) ∧
    (syncMailbox [⟨101, true, true, none⟩, ⟨102, true, true, none⟩,
        ⟨103, true, true, none⟩] 100).1.2.Nodup :=
  C1_fetchEmails_yield_set
    [⟨101, true, true, none⟩, ⟨102, true, true, none⟩, ⟨103, true, true, none⟩]
    100 (by decide) (by decide)

/-- Claim C9: re-running a sync cycle for a mailbox with the sync position
returned by the previous cycle, with the mailbox content (hence its highest
UID) unchanged on the server, yields zero messages and returns the same
position. -/
theorem C9_sync_cycle_idempotent (mbox : List ImapMessage) (lastUid : Nat)
    (hs : (mbox.map ImapMessage.uid).Pairwise (· < ·))
    (hh : ∀ m ∈ mbox, m.hasEnvelope = true ∧ m.hasSource = true ∧ m.parseError = none) :
    syncMailbox mbox ((syncMailbox mbox lastUid).1.1) =
      (((syncMailbox mbox lastUid).1.1, []), none) := by
  have h := syncMailbox_happy mbox lastUid hs hh
  rw [h]
  dsimp only
  have h2 := syncMailbox_happy mbox (currentMaxOf mbox lastUid) hs hh
  rw [h2]
  have hcc : currentMaxOf mbox (currentMaxOf mbox lastUid) = currentMaxOf mbox lastUid := by
    cases hlast : mbox.getLast? with
    | none => rw [currentMaxOf_none _ hlast]
    | some b =>
      have hble : b.uid ≤ currentMaxOf mbox lastUid := by
        rw [currentMaxOf_some lastUid hlast]
        split <;> omega
      rw [currentMaxOf_some _ hlast, if_neg (by omega)]
  rw [hcc, uidsIn_empty mbox _ _ (by omega)]

/-- Witness for C9: concrete two-message mailbox, `lastUid = 0`. -/
theorem C9_sync_cycle_idempotent_witness :
    syncMailbox [⟨1, true, true, none⟩, ⟨3, true, true, none⟩]
        ((syncMailbox [⟨1, true, true, none⟩, ⟨3, true, true, none⟩] 0).1.1) =
      (((syncMailbox [⟨1, true, true, none⟩, ⟨3, true, true, none⟩] 0).1.1, []), none) :=
  C9_sync_cycle_idempotent [⟨1, true, true, none⟩, ⟨3, true, true, none⟩] 0
    (by decide) (by decide)

end ImapConnector

namespace ImapConnector

lemma processMsg_pos (lastUid : Nat) (st : Nat × List Nat) (m : ImapMessage) :
    (processMsg lastUid st m).1.1 = st.1 ∨ (processMsg lastUid st m).1.1 = m.uid := by
  rw [processMsg]
  by_cases h1 : lastUid ≠ 0 ∧ m.uid ≤ lastUid
  · rw [if_pos h1]
    left
    rfl
  · rw [if_neg h1]
    by_cases h2 : (m.hasEnvelope && m.hasSource) = true
    · cases hp : m.parseError with
      | none =>
        simp only [hp, if_pos h2, maxStep]
        split
        · right; rfl
        · left; rfl
      | some e =>
        simp only [hp, if_pos h2, maxStep]
        split
        · right; rfl
        · left; rfl
    · simp only [if_neg h2, maxStep]
      split
      · right; rfl
      · left; rfl

lemma processMsgs_pos (lastUid : Nat) (msgs : List ImapMessage) :
    ∀ st : Nat × List Nat, (processMsgs lastUid st msgs).1.1 = st.1 ∨
      ∃ m ∈ msgs, (processMsgs lastUid st msgs).1.1 = m.uid := by
  induction msgs with
  | nil => intro st; left; rfl
  | cons m rest ih =>
    intro st
    have hm := processMsg_pos lastUid st m
    rw [processMsgs]
    cases hp : processMsg lastUid st m with
    | mk st' err =>
      rw [hp] at hm
      cases err with
      | none =>
        dsimp only
        rcases ih st' with h | ⟨x, hx, h⟩
        · rw [h]
          rcases hm with h2 | h2
          · left; exact h2
          · right; exact ⟨m, List.mem_cons_self _ _, h2⟩
        · right
          exact ⟨x, List.mem_cons_of_mem _ hx, h⟩
      | some e =>
        dsimp only
        rcases hm with h2 | h2
        · left; exact h2
        · right; exact ⟨m, List.mem_cons_self _ _, h2⟩

lemma batchLoop_pos (mbox : List ImapMessage) (lastUid maxU : Nat) :
    ∀ (fuel startUid : Nat) (st : Nat × List Nat),
      (batchLoop mbox lastUid maxU fuel startUid st).1.1 = st.1 ∨
      ∃ m ∈ batchLoopFetched mbox lastUid maxU fuel startUid st,
        (batchLoop mbox lastUid maxU fuel startUid st).1.1 = m.uid := by
  intro fuel
  induction fuel with
  | zero => intro startUid st; left; rfl
  | succ fuel ih =>
    intro startUid st
    by_cases hcur : startUid ≤ maxU
    · simp only [batchLoop, batchLoopFetched, if_pos hcur]
      have hms := processMsgs_pos lastUid
        (fetchRange mbox startUid (min (startUid + BATCH_SIZE - 1) maxU)) st
      cases hp : processMsgs lastUid st
          (fetchRange mbox startUid (min (startUid + BATCH_SIZE - 1) maxU)) with
      | mk st' err =>
        rw [hp] at hms
        cases err with
        | none =>
          dsimp only
          rcases ih (min (startUid + BATCH_SIZE - 1) maxU + 1) st' with h | ⟨x, hx, h⟩
          · rw [h]
            rcases hms with h2 | ⟨y, hy, h2⟩
            · left; exact h2
            · right; exact ⟨y, List.mem_append_left _ hy, h2⟩
          · right; exact ⟨x, List.mem_append_right _ hx, h⟩
        | some e =>
          dsimp only
          rcases hms with h2 | ⟨y, hy, h2⟩
          · left; exact h2
          · right; exact ⟨y, hy, h2⟩
    · rw [batchLoop, if_neg hcur]
      left
      rfl

lemma syncMailbox_pos (mbox : List ImapMessage) (lastUid : Nat) :
    (syncMailbox mbox lastUid).1.1 = lastUid ∨
    ∃ m ∈ syncMailboxFetched mbox lastUid,
      (syncMailbox mbox lastUid).1.1 = m.uid := by
  rw [syncMailbox, syncMailboxFetched]
  by_cases h : 0 < mbox.length
  · rw [if_pos h, if_pos h]
    exact batchLoop_pos mbox lastUid _ _ _ _
  · rw [if_neg h, if_neg h]
    left
    rfl

lemma upsert_mem : ∀ (l : List (String × Nat)) (k : String) (v : Nat)
    (pv : String × Nat), pv ∈ upsert l k v → pv ∈ l ∨ pv = (k, v) := by
  intro l
  induction l with
  | nil =>
    intro k v pv h
    rw [upsert] at h
    simp at h
    right
    simp [h]
  | cons kv rest ih =>
    intro k v pv h
    rw [upsert] at h
    split at h
    · rcases List.mem_cons.mp h with h1 | h1
      · right; simp [h1]
      · left; exact List.mem_cons_of_mem _ h1
    · rcases List.mem_cons.mp h with h1 | h1
      · left; simp [h1]
      · rcases ih k v pv h1 with h2 | h2
        · left; exact List.mem_cons_of_mem _ h2
        · right; exact h2

lemma runMailboxes_newMaxUids_sound :
    ∀ (runs : List MailboxRun) (st : EngineState) (pv : String × Nat),
      pv ∈ (runMailboxes st runs).1.newMaxUids →
      pv ∈ st.newMaxUids ∨
      ∃ mb ∈ runs, mb.path = pv.1 ∧
        ∃ mbox, mb.openResult = Except.ok mbox ∧
          (pv.2 = mb.lastUid ∨
            ∃ m ∈ syncMailboxFetched mbox mb.lastUid, pv.2 = m.uid) := by
  intro runs
  induction runs with
  | nil =>
    intro st pv h
    left
    exact h
  | cons mb rest ih =>
    intro st pv h
    rw [runMailboxes] at h
    dsimp only at h
    rcases ih (processMailboxRun st mb).1 pv h with h1 | ⟨x, hx, h1⟩
    · -- entry comes from the state after processing `mb`
      rw [processMailboxRun] at h1
      cases hop : mb.openResult with
      | error emsg =>
        rw [hop] at h1
        left
        exact h1
      | ok mbox =>
        rw [hop] at h1
        dsimp only at h1
        rcases upsert_mem _ _ _ _ h1 with h2 | h2
        · left; exact h2
        · right
          refine ⟨mb, List.mem_cons_self _ _, ?_, mbox, hop, ?_⟩
          · rw [h2]
          · rcases syncMailbox_pos mbox mb.lastUid with h3 | ⟨m, hm, h3⟩
            · left; rw [h2]; exact h3
            · right
              refine ⟨m, hm, ?_⟩
              rw [h2]
              exact h3
    · right
      exact ⟨x, List.mem_cons_of_mem _ hx, h1⟩

/-- Claim C2 (counterexample): mailbox "INBOX" holds messages 1 and 2,
message 2 fails to parse; message 1 is the only yielded message, yet the
sync position recorded by `getUpdatedSyncState` for "INBOX" is 2 — greater
than the highest yielded UID. -/
theorem C2_counterexample :
    runMailboxes ⟨[], none⟩
      [⟨"INBOX", 0, Except.ok [⟨1, true, true, none⟩,
        ⟨2, true, true, some "Unexpected end of MIME input"⟩]⟩] =
      (⟨[("INBOX", 2)], none⟩, [("INBOX", [1])]) ∧
    (getUpdatedSyncState (runMailboxes ⟨[], none⟩
      [⟨"INBOX", 0, Except.ok [⟨1, true, true, none⟩,
        ⟨2, true, true, some "Unexpected end of MIME input"⟩]⟩]).1).imap =
      [("INBOX", 2)] ∧
    ¬ (2 ≤ 1) := by
  refine ⟨by decide, by decide, by omega⟩

/-- Claim C2 (amended): every `newMaxUids` entry returned by
`getUpdatedSyncState` is either the mailbox's starting `lastUid` or the UID
of a message actually fetched for that mailbox this cycle (a member of
`syncMailboxFetched`, the union of the batch ranges the loop really
requested before completing or aborting) — so the position never moves
beyond a fetched message's UID, and in particular never into a batch that
was skipped after an abort; a message that fails to parse (or arrives
without envelope/source and is not yielded) advances the position to its
own UID, but not past it. -/
theorem C2_sync_position_bounded (runs : List MailboxRun) (pv : String × Nat)
    (hmem : pv ∈ (getUpdatedSyncState (runMailboxes ⟨[], none⟩ runs).1).imap) :
    ∃ mb ∈ runs, mb.path = pv.1 ∧
      ∃ mbox, mb.openResult = Except.ok mbox ∧
        (pv.2 = mb.lastUid ∨
          ∃ m ∈ syncMailboxFetched mbox mb.lastUid, pv.2 = m.uid) := by
  have h := runMailboxes_newMaxUids_sound runs ⟨[], none⟩ pv hmem
  rcases h with h | h
  · simp at h
  · exact h

/-- Witness for C2 (amended) at the parse-failure scenario: the recorded
entry ("INBOX", 2) is the UID of a message actually fetched. -/
theorem C2_sync_position_bounded_witness :
    ∃ mb ∈ ([⟨"INBOX", 0, Except.ok [⟨1, true, true, none⟩,
        ⟨2, true, true, some "Unexpected end of MIME input"⟩]⟩] : List MailboxRun),
      mb.path = ("INBOX", 2).1 ∧
      ∃ mbox, mb.openResult = Except.ok mbox ∧
        (("INBOX", 2).2 = mb.lastUid ∨
          ∃ m ∈ syncMailboxFetched mbox mb.lastUid, ("INBOX", 2).2 = m.uid) :=
  C2_sync_position_bounded
    [⟨"INBOX", 0, Except.ok [⟨1, true, true, none⟩,
      ⟨2, true, true, some "Unexpected end of MIME input"⟩]⟩]
    ("INBOX", 2) (by decide)

end ImapConnector

namespace ImapConnector

/-- Claim C7: one mailbox ("INBOX") fails with the underlying transport
error "Connection refused" after `withRetry` exhausts all 5 attempts. The
failure is caught at the mailbox loop (nothing raises past the cycle) and
the engine proceeds to sync the remaining mailbox ("Archive", yielding its
message) — but no sync-cycle status note is synthesized: `withRetry`
rethrows the underlying error unchanged (its final line
`throw new Error('IMAP operation failed after all retries.')` is
unreachable), so `err.message.includes('IMAP operation failed after all
retries')` is false and `statusMessage` stays unset, contradicting the
claim that a note is included in the returned sync state. -/
theorem C7_mailbox_isolation_no_status_note :
    (withRetry (fun _ => (Except.error "Connection refused" : Except String Unit))
      (fun _ => 0) 5).1 = Except.error "Connection refused" ∧
    errorTriggersNote "Connection refused" = false ∧
    runMailboxes ⟨[], none⟩
      [⟨"INBOX", 0, Except.error "Connection refused"⟩,
       ⟨"Archive", 0, Except.ok [⟨1, true, true, none⟩]⟩] =
      (⟨[("Archive", 1)], none⟩, [("INBOX", []), ("Archive", [1])]) ∧
    (getUpdatedSyncState (runMailboxes ⟨[], none⟩
      [⟨"INBOX", 0, Except.error "Connection refused"⟩,
       ⟨"Archive", 0, Except.ok [⟨1, true, true, none⟩]⟩]).1).statusMessage = none := by
  refine ⟨by decide, by decide, by decide, by decide⟩

/-- Claim C4: `withRetry` with `maxRetries = 5`, jitter below one second
(`Math.random() * 1000`): (a) failing on attempts 1–4 and succeeding on
attempt 5 returns the success without raising, with the waited delays being
exactly `2^n seconds + jitter n` for n = 1..4 and strictly increasing;
(b) when all 5 attempts fail, the final attempt's error propagates. -/
theorem C4_withRetry_backoff {α : Type} (outcome : Nat → Except String α)
    (jitter : Nat → Nat) (hj : ∀ n, jitter n < 1000) :
    (∀ (a : α),
      (∀ n, 1 ≤ n → n ≤ 4 → ∃ e, outcome n = Except.error e) →
      outcome 5 = Except.ok a →
      (withRetry outcome jitter 5).1 = Except.ok a ∧
      (withRetry outcome jitter 5).2 =
        [2 ^ 1 * 1000 + jitter 1, 2 ^ 2 * 1000 + jitter 2,
         2 ^ 3 * 1000 + jitter 3, 2 ^ 4 * 1000 + jitter 4] ∧
      (withRetry outcome jitter 5).2.Chain' (· < ·)) ∧
    (∀ e1 e2 e3 e4 e5,
      outcome 1 = Except.error e1 → outcome 2 = Except.error e2 →
      outcome 3 = Except.error e3 → outcome 4 = Except.error e4 →
      outcome 5 = Except.error e5 →
      (withRetry outcome jitter 5).1 = Except.error e5) := by
  constructor
  · intro a hfail hok
    obtain ⟨e1, h1⟩ := hfail 1 (by omega) (by omega)
    obtain ⟨e2, h2⟩ := hfail 2 (by omega) (by omega)
    obtain ⟨e3, h3⟩ := hfail 3 (by omega) (by omega)
    obtain ⟨e4, h4⟩ := hfail 4 (by omega) (by omega)
    have hrun : withRetry outcome jitter 5 =
        (Except.ok a,
         [2 ^ 1 * 1000 + jitter 1, 2 ^ 2 * 1000 + jitter 2,
          2 ^ 3 * 1000 + jitter 3, 2 ^ 4 * 1000 + jitter 4]) := by
      rw [withRetry]
      rw [withRetryGo, h1]
      rw [withRetryGo, h2]
      rw [withRetryGo, h3]
      rw [withRetryGo, h4]
      rw [withRetryGo, hok]
      simp
    refine ⟨by rw [hrun], by rw [hrun], ?_⟩
    rw [hrun]
    have j1 := hj 1
    have j2 := hj 2
    have j3 := hj 3
    have j4 := hj 4
    simp only [List.chain'_cons, List.chain'_singleton, and_true]
    refine ⟨by norm_num; omega, by norm_num; omega, by norm_num; omega⟩
  · intro e1 e2 e3 e4 e5 h1 h2 h3 h4 h5
    rw [withRetry]
    rw [withRetryGo, h1]
    rw [withRetryGo, h2]
    rw [withRetryGo, h3]
    rw [withRetryGo, h4]
    rw [withRetryGo, h5]
    simp

/-- Witness for C4: outcome failing on attempts 1–4 with "boom" and
succeeding with 42 on attempt 5, jitter constantly 500 ms. -/
theorem C4_withRetry_backoff_witness :
    (withRetry (fun n => if n = 5 then (Except.ok 42 : Except String Nat)
      else Except.error "boom") (fun _ => 500) 5).1 = Except.ok 42 :=
  ((C4_withRetry_backoff
      (fun n => if n = 5 then (Except.ok 42 : Except String Nat) else Except.error "boom")
      (fun _ => 500) (fun _ => by norm_num)).1 42
    (fun n hn1 hn4 => ⟨"boom", by rw [if_neg (by omega)]⟩)
    (by rw [if_pos rfl])).1

end ImapConnector

namespace PkceStore

lemma foldl_sweepOnce_nil (ts : List Nat) :
    ts.foldl (fun store t => sweepOnce t store) ([] : List (String × PKCESession)) = [] := by
  induction ts with
  | nil => rfl
  | cons t ts ih => simpa [sweepOnce] using ih

lemma storeAtTime_eq (phi T now : Nat) (s v : String) :
    storeAtTime phi T now s v =
      if (sweepTicks phi now).all (fun t => decide (t - T ≤ TTL))
      then [(s, ⟨v, s, T⟩)] else [] := by
  rw [storeAtTime]
  generalize sweepTicks phi now = ts
  induction ts with
  | nil => rfl
  | cons t ts ih =>
    rw [List.foldl_cons, List.all_cons]
    by_cases h : t - T ≤ TTL
    · have hkeep : sweepOnce t [(s, ⟨v, s, T⟩)] = [(s, ⟨v, s, T⟩)] := by
        simp [sweepOnce]
        omega
      rw [hkeep, ih]
      simp [h]
    · have hdrop : sweepOnce t [(s, ⟨v, s, T⟩)] = [] := by
        simp [sweepOnce]
        omega
      rw [hdrop, foldl_sweepOnce_nil]
      simp [h]

lemma mem_sweepTicks (phi now t : Nat) :
    t ∈ sweepTicks phi now ↔
      (∃ k, k < now / SWEEP_INTERVAL + 1 ∧ phi + k * SWEEP_INTERVAL = t) ∧ t ≤ now := by
  rw [sweepTicks]
  simp [List.mem_filter, List.mem_map, List.mem_range]

/-- Claim C3 (counterexample): with the sweep timer's first tick falling at
9.5 minutes (570000 ms) and the pending authorization created at T = 0, the
callback lookup still succeeds at T + 11 minutes (660000 ms): the only tick
so far, at 570000 ms, found the entry merely 9.5 minutes old and kept it,
and the next tick is at 19.5 minutes — so "not retrievable from T + 11
minutes onward, regardless of the sweep phase" is false. -/
theorem C3_counterexample :
    (callbackLookup 570000 0 660000 "state0" "verifier0").isSome = true ∧
    660000 = 0 + 11 * 60 * 1000 := by
  refine ⟨by decide, by norm_num⟩

/-- Claim C3 (amended): for a pending authorization created at time T (ms),
with the sweep's first tick no later than T + SWEEP_INTERVAL (the timer
starts with the module, before any entry exists), the callback lookup
succeeds at every time up to T + 9 minutes, and fails at every time from
T + 20 minutes (TTL + sweep interval) onward — 11 minutes is not enough,
because an entry aged just under the TTL at one tick survives until the
next tick one sweep interval later. -/
theorem C3_pending_authorization_ttl (phi T now : Nat) (state verifier : String)
    (hphi : phi ≤ T + SWEEP_INTERVAL) :
    (now ≤ T + 9 * 60 * 1000 →
      (callbackLookup phi T now state verifier).isSome = true) ∧
    (T + TTL + SWEEP_INTERVAL ≤ now →
      (callbackLookup phi T now state verifier).isSome = false) := by
  have hS : SWEEP_INTERVAL = 600000 := by norm_num [SWEEP_INTERVAL]
  have hT : TTL = 600000 := by norm_num [TTL]
  constructor
  · intro hnow
    rw [callbackLookup, storeAtTime_eq]
    have hall : (sweepTicks phi now).all (fun t => decide (t - T ≤ TTL)) = true := by
      rw [List.all_eq_true]
      intro t ht
      have hmem := (mem_sweepTicks phi now t).mp ht
      simp only [decide_eq_true_eq]
      omega
    rw [hall]
    simp [List.lookup]
  · intro hnow
    rw [hS] at hphi
    rw [hS, hT] at hnow
    rw [callbackLookup, storeAtTime_eq]
    -- a tick falls in (T + TTL, T + TTL + SWEEP_INTERVAL] and removes the entry
    have hq := Nat.div_add_mod (T + 600000 - phi) 600000
    have hr : (T + 600000 - phi) % 600000 < 600000 := Nat.mod_lt _ (by norm_num)
    have hk : ((T + 600000 - phi) / 600000 + 1) ≤ now / 600000 :=
      (Nat.le_div_iff_mul_le (show 0 < 600000 by norm_num)).mpr (by omega)
    have htick : phi + ((T + 600000 - phi) / 600000 + 1) * 600000 ∈
        sweepTicks phi now := by
      rw [mem_sweepTicks, hS]
      exact ⟨⟨(T + 600000 - phi) / 600000 + 1, by omega, rfl⟩, by omega⟩
    have hbad : ¬ ((sweepTicks phi now).all (fun t => decide (t - T ≤ TTL)) = true) := by
      rw [List.all_eq_true]
      intro hforall
      have hv := hforall _ htick
      simp only [decide_eq_true_eq] at hv
      rw [hT] at hv
      omega
    have hfalse : (sweepTicks phi now).all (fun t => decide (t - T ≤ TTL)) = false := by
      cases h : (sweepTicks phi now).all (fun t => decide (t - T ≤ TTL))
      · rfl
      · exact absurd h hbad
    rw [hfalse]
    simp [List.lookup]

/-- Witness for C3 (amended) at phase 600000 (timer started with the
module at time 0), entry created at T = 0. -/
theorem C3_pending_authorization_ttl_witness :
    (540000 ≤ 0 + 9 * 60 * 1000 →
      (callbackLookup 600000 0 540000 "s0" "v0").isSome = true) ∧
    (0 + TTL + SWEEP_INTERVAL ≤ 540000 →
      (callbackLookup 600000 0 540000 "s0" "v0").isSome = false) :=
  C3_pending_authorization_ttl 600000 0 540000 "s0" "v0" (by norm_num [SWEEP_INTERVAL])

end PkceStore

/-- Claim C5: `refreshToken` raises when no refresh token is stored and
raises when the provider rejects the refresh grant; in both failure cases
the stored credential row is completely unchanged — the `db.update` runs
only after a successful provider response, so no partial write of access
token, refresh token, expiry or updated-at can occur. -/
theorem C5_refreshToken_failures_leave_row_unchanged (encrypt : String → String)
    (db : TokenDB) (tid : String) (t : OAuthTokenRow) (now : Nat)
    (hsel : OAuthService.dbSelect db tid = some t) :
    (t.refreshToken = none →
      ∀ resp, OAuthService.refreshToken encrypt db tid resp now =
        (Except.error "No refresh token available", db)) ∧
    (∀ r, t.refreshToken = some r → t.provider = "microsoft" →
      ∀ emsg, OAuthService.refreshToken encrypt db tid (Except.error emsg) now =
        (Except.error "Failed to refresh OAuth token", db)) := by
  constructor
  · intro hnone resp
    rw [OAuthService.refreshToken, hsel]
    dsimp only
    rw [hnone]
  · intro r hsome hprov emsg
    rw [OAuthService.refreshToken, hsel]
    dsimp only
    rw [hsome]
    dsimp only
    rw [if_pos hprov]

/-- Witness for C5: a concrete one-row table whose row has an (encrypted)
refresh token and provider "microsoft", with the provider rejecting. -/
theorem C5_refreshToken_failures_witness :
    ((⟨"tok1", "user1", "microsoft", "a@b.c", "encA", some "encR", some 1000,
        some "scope", 0, 0⟩ : OAuthTokenRow).refreshToken = none →
      ∀ resp, OAuthService.refreshToken (fun s => s)
          [⟨"tok1", "user1", "microsoft", "a@b.c", "encA", some "encR", some 1000,
            some "scope", 0, 0⟩] "tok1" resp 5 =
        (Except.error "No refresh token available",
          [⟨"tok1", "user1", "microsoft", "a@b.c", "encA", some "encR", some 1000,
            some "scope", 0, 0⟩])) ∧
    (∀ r, (⟨"tok1", "user1", "microsoft", "a@b.c", "encA", some "encR", some 1000,
        some "scope", 0, 0⟩ : OAuthTokenRow).refreshToken = some r →
      (⟨"tok1", "user1", "microsoft", "a@b.c", "encA", some "encR", some 1000,
        some "scope", 0, 0⟩ : OAuthTokenRow).provider = "microsoft" →
      ∀ emsg, OAuthService.refreshToken (fun s => s)
          [⟨"tok1", "user1", "microsoft", "a@b.c", "encA", some "encR", some 1000,
            some "scope", 0, 0⟩] "tok1" (Except.error emsg) 5 =
        (Except.error "Failed to refresh OAuth token",
          [⟨"tok1", "user1", "microsoft", "a@b.c", "encA", some "encR", some 1000,
            some "scope", 0, 0⟩])) :=
  C5_refreshToken_failures_leave_row_unchanged (fun s => s)
    [⟨"tok1", "user1", "microsoft", "a@b.c", "encA", some "encR", some 1000,
      some "scope", 0, 0⟩] "tok1"
    ⟨"tok1", "user1", "microsoft", "a@b.c", "encA", some "encR", some 1000,
      some "scope", 0, 0⟩ 5 (by decide)

/-- Claim C8: token material reaches the `oauth_tokens` store only through
`encrypt`: `storeToken` writes `encrypt access_token` and (when present)
`encrypt refresh_token`, never the received plaintext (given that
encryption changes its input); `refreshToken`'s successful update likewise
writes only `encrypt`-images (keeping the previously stored, already
encrypted refresh token when the provider rotates none); and the list
endpoint's per-row shape is independent of the stored token values — it
carries no token fields at all. -/
theorem C8_tokens_encrypted_at_rest (encrypt : String → String)
    (hEnc : ∀ s, encrypt s ≠ s) :
    (∀ (db : TokenDB) (userId provider email : String) (resp : OAuthTokenResponse)
        (now : Nat) (newId : String),
      (OAuthService.storeToken encrypt db userId provider email resp now newId).2.accessToken
        = encrypt resp.access_token ∧
      (OAuthService.storeToken encrypt db userId provider email resp now newId).2.refreshToken
        = (match resp.refresh_token with
           | some rt => some (encrypt rt)
           | none => none) ∧
      (OAuthService.storeToken encrypt db userId provider email resp now newId).2.accessToken
        ≠ resp.access_token) ∧
    (∀ (db : TokenDB) (tid : String) (t : OAuthTokenRow) (r : String)
        (resp : OAuthTokenResponse) (now : Nat),
      OAuthService.dbSelect db tid = some t → t.refreshToken = some r →
      t.provider = "microsoft" →
      ∃ row, (OAuthService.refreshToken encrypt db tid (Except.ok resp) now).1
          = Except.ok row ∧
        row.accessToken = encrypt resp.access_token ∧
        row.refreshToken = (match resp.refresh_token with
          | some rt => some (encrypt rt)
          | none => t.refreshToken) ∧
        row.accessToken ≠ resp.access_token) ∧
    (∀ (t : OAuthTokenRow) (a : String) (r : Option String),
      OAuthController.sanitizeToken { t with accessToken := a, refreshToken := r }
        = OAuthController.sanitizeToken t) := by
  refine ⟨?_, ?_, ?_⟩
  · intro db userId provider email resp now newId
    exact ⟨rfl, rfl, hEnc _⟩
  · intro db tid t r resp now hsel hsome hprov
    rw [OAuthService.refreshToken, hsel]
    dsimp only
    rw [hsome]
    dsimp only
    rw [if_pos hprov]
    exact ⟨_, rfl, rfl, rfl, hEnc _⟩
  · intro t a r
    rfl

/-- Witness for C8 with a length-increasing (hence never-identity)
encryption function and a concrete response carrying a rotated refresh
token. -/
theorem C8_tokens_encrypted_at_rest_witness :
    (∀ (db : TokenDB) (userId provider email : String) (resp : OAuthTokenResponse)
        (now : Nat) (newId : String),
      (OAuthService.storeToken (fun s => "enc:" ++ s) db userId provider email resp now newId).2.accessToken
        = (fun s => "enc:" ++ s) resp.access_token ∧
      (OAuthService.storeToken (fun s => "enc:" ++ s) db userId provider email resp now newId).2.refreshToken
        = (match resp.refresh_token with
           | some rt => some ((fun s => "enc:" ++ s) rt)
           | none => none) ∧
      (OAuthService.storeToken (fun s => "enc:" ++ s) db userId provider email resp now newId).2.accessToken
        ≠ resp.access_token) ∧
    (∀ (db : TokenDB) (tid : String) (t : OAuthTokenRow) (r : String)
        (resp : OAuthTokenResponse) (now : Nat),
      OAuthService.dbSelect db tid = some t → t.refreshToken = some r →
      t.provider = "microsoft" →
      ∃ row, (OAuthService.refreshToken (fun s => "enc:" ++ s) db tid (Except.ok resp) now).1
          = Except.ok row ∧
        row.accessToken = (fun s => "enc:" ++ s) resp.access_token ∧
        row.refreshToken = (match resp.refresh_token with
          | some rt => some ((fun s => "enc:" ++ s) rt)
          | none => t.refreshToken) ∧
        row.accessToken ≠ resp.access_token) ∧
    (∀ (t : OAuthTokenRow) (a : String) (r : Option String),
      OAuthController.sanitizeToken { t with accessToken := a, refreshToken := r }
        = OAuthController.sanitizeToken t) :=
  C8_tokens_encrypted_at_rest (fun s => "enc:" ++ s)
    (fun s h => by
      have hlen := congrArg String.length h
      simp [String.length_append] at hlen
      exact absurd hlen (by decide))

/-- Claim C10: the delete-credential operation deletes the token row with
the requested id for any authenticated caller, even when the row's owning
user differs from the caller; the outcome does not depend on which
authenticated user calls it (no ownership comparison exists in either the
controller handler or `OAuthService.deleteToken`). -/
theorem C10_delete_ignores_ownership (caller : AuthedUser) (db : TokenDB)
    (tid : String) (row : OAuthTokenRow) (hrow : row ∈ db) (hid : row.id = tid)
    (hdiff : caller.id ≠ row.userId) :
    (OAuthController.deleteToken (some caller) tid db).1 = 200 ∧
    (OAuthController.deleteToken (some caller) tid db).2 =
      OAuthService.deleteToken db tid ∧
    row ∉ (OAuthController.deleteToken (some caller) tid db).2 ∧
    (∀ other : AuthedUser, OAuthController.deleteToken (some other) tid db =
      OAuthController.deleteToken (some caller) tid db) := by
  refine ⟨rfl, rfl, ?_, fun other => rfl⟩
  intro hmem
  have h2 := (List.mem_filter.mp hmem).2
  simp [hid] at h2

/-- Witness for C10: caller "mallory" deletes the row owned by "alice". -/
theorem C10_delete_ignores_ownership_witness :
    (OAuthController.deleteToken (some ⟨"mallory", "m@x.y"⟩) "tok1"
      [⟨"tok1", "alice", "microsoft", "a@b.c", "encA", none, none, none, 0, 0⟩]).1 = 200 ∧
    (OAuthController.deleteToken (some ⟨"mallory", "m@x.y"⟩) "tok1"
      [⟨"tok1", "alice", "microsoft", "a@b.c", "encA", none, none, none, 0, 0⟩]).2 =
      OAuthService.deleteToken
        [⟨"tok1", "alice", "microsoft", "a@b.c", "encA", none, none, none, 0, 0⟩] "tok1" ∧
    (⟨"tok1", "alice", "microsoft", "a@b.c", "encA", none, none, none, 0, 0⟩ : OAuthTokenRow) ∉
      (OAuthController.deleteToken (some ⟨"mallory", "m@x.y"⟩) "tok1"
        [⟨"tok1", "alice", "microsoft", "a@b.c", "encA", none, none, none, 0, 0⟩]).2 ∧
    (∀ other : AuthedUser, OAuthController.deleteToken (some other) "tok1"
        [⟨"tok1", "alice", "microsoft", "a@b.c", "encA", none, none, none, 0, 0⟩] =
      OAuthController.deleteToken (some ⟨"mallory", "m@x.y"⟩) "tok1"
        [⟨"tok1", "alice", "microsoft", "a@b.c", "encA", none, none, none, 0, 0⟩]) :=
  C10_delete_ignores_ownership ⟨"mallory", "m@x.y"⟩
    [⟨"tok1", "alice", "microsoft", "a@b.c", "encA", none, none, none, 0, 0⟩]
    "tok1" ⟨"tok1", "alice", "microsoft", "a@b.c", "encA", none, none, none, 0, 0⟩
    (by decide) (by decide) (by decide)

lemma b64Char_urlSafe (n : Nat) : urlSafeChar (b64Char n) := by
  by_cases h : n < 64
  · interval_cases n <;> decide
  · have hlen : b64Alphabet.length ≤ n := by
      have h64 : b64Alphabet.length = 64 := by decide
      omega
    rw [b64Char, List.getD_eq_default _ _ hlen]
    decide

lemma base64urlEncode_mem_urlSafe (l : List Nat) :
    ∀ c ∈ base64urlEncode l, urlSafeChar c := by
  induction l using base64urlEncode.induct with
  | case1 => intro c hc; simp [base64urlEncode] at hc
  | case2 b1 =>
    intro c hc
    simp [base64urlEncode] at hc
    rcases hc with h | h <;> (subst h; exact b64Char_urlSafe _)
  | case3 b1 b2 =>
    intro c hc
    simp [base64urlEncode] at hc
    rcases hc with h | h | h <;> (subst h; exact b64Char_urlSafe _)
  | case4 b1 b2 b3 rest ih =>
    intro c hc
    simp only [base64urlEncode, List.mem_cons] at hc
    rcases hc with h | h | h | h | h
    · subst h; exact b64Char_urlSafe _
    · subst h; exact b64Char_urlSafe _
    · subst h; exact b64Char_urlSafe _
    · subst h; exact b64Char_urlSafe _
    · exact ih c h

lemma base64urlEncode_length (l : List Nat) :
    (base64urlEncode l).length = (l.length * 4 + 2) / 3 := by
  induction l using base64urlEncode.induct with
  | case1 => rfl
  | case2 b1 => simp [base64urlEncode]
  | case3 b1 b2 => simp [base64urlEncode]
  | case4 b1 b2 b3 rest ih =>
    simp only [base64urlEncode, List.length_cons, ih]
    omega

lemma b64Val_b64Char (n : Nat) (h : n < 64) : b64Val (b64Char n) = n := by
  interval_cases n <;> decide

lemma base64urlDecode_encode (l : List Nat) (hb : ∀ b ∈ l, b < 256) :
    base64urlDecode (base64urlEncode l) = l := by
  induction l using base64urlEncode.induct with
  | case1 => rfl
  | case2 b1 =>
    have h1 : b1 < 256 := hb b1 (by simp)
    show [b64Val (b64Char (b1 / 4)) * 4 + b64Val (b64Char (b1 % 4 * 16)) / 16] = [b1]
    rw [b64Val_b64Char _ (by omega), b64Val_b64Char _ (by omega)]
    have he : b1 / 4 * 4 + b1 % 4 * 16 / 16 = b1 := by omega
    rw [he]
  | case3 b1 b2 =>
    have h1 : b1 < 256 := hb b1 (by simp)
    have h2 : b2 < 256 := hb b2 (by simp)
    show [b64Val (b64Char (b1 / 4)) * 4 + b64Val (b64Char (b1 % 4 * 16 + b2 / 16)) / 16,
          b64Val (b64Char (b1 % 4 * 16 + b2 / 16)) % 16 * 16 +
            b64Val (b64Char (b2 % 16 * 4)) / 4] = [b1, b2]
    rw [b64Val_b64Char _ (by omega), b64Val_b64Char _ (by omega),
      b64Val_b64Char _ (by omega)]
    have he1 : b1 / 4 * 4 + (b1 % 4 * 16 + b2 / 16) / 16 = b1 := by omega
    have he2 : (b1 % 4 * 16 + b2 / 16) % 16 * 16 + b2 % 16 * 4 / 4 = b2 := by omega
    rw [he1, he2]
  | case4 b1 b2 b3 rest ih =>
    have h1 : b1 < 256 := hb b1 (by simp)
    have h2 : b2 < 256 := hb b2 (by simp)
    have h3 : b3 < 256 := hb b3 (by simp)
    have hrest : ∀ b ∈ rest, b < 256 := fun b hbm =>
      hb b (by simp [hbm])
    show (b64Val (b64Char (b1 / 4)) * 4 + b64Val (b64Char (b1 % 4 * 16 + b2 / 16)) / 16) ::
      (b64Val (b64Char (b1 % 4 * 16 + b2 / 16)) % 16 * 16 +
        b64Val (b64Char (b2 % 16 * 4 + b3 / 64)) / 4) ::
      (b64Val (b64Char (b2 % 16 * 4 + b3 / 64)) % 4 * 64 + b64Val (b64Char (b3 % 64))) ::
      base64urlDecode (base64urlEncode rest) = b1 :: b2 :: b3 :: rest
    rw [b64Val_b64Char _ (by omega), b64Val_b64Char _ (by omega),
      b64Val_b64Char _ (by omega), b64Val_b64Char _ (by omega), ih hrest]
    have he1 : b1 / 4 * 4 + (b1 % 4 * 16 + b2 / 16) / 16 = b1 := by omega
    have he2 : (b1 % 4 * 16 + b2 / 16) % 16 * 16 + (b2 % 16 * 4 + b3 / 64) / 4 = b2 := by
      omega
    have he3 : (b2 % 16 * 4 + b3 / 64) % 4 * 64 + b3 % 64 = b3 := by omega
    rw [he1, he2, he3]

/-- Claim C6: `generatePKCE` builds the verifier as the base64url encoding
of the 32 random bytes — 43 characters, URL-safe alphabet, and losslessly
decodable back to the 32 entropy bytes — and the challenge as the base64url
encoding of the SHA-256 digest of the verifier string, with challenge
method `'S256'`. -/
theorem C6_generatePKCE_challenge (randomBytes : List Nat)
    (sha256 : List Char → List Nat) (hlen : randomBytes.length = 32)
    (hbytes : ∀ b ∈ randomBytes, b < 256) :
    (generatePKCE randomBytes sha256).codeChallenge =
      base64urlEncode (sha256 (generatePKCE randomBytes sha256).codeVerifier) ∧
    (generatePKCE randomBytes sha256).codeChallengeMethod = "S256" ∧
    (generatePKCE randomBytes sha256).codeVerifier.length = 43 ∧
    (∀ c ∈ (generatePKCE randomBytes sha256).codeVerifier, urlSafeChar c) ∧
    (∀ c ∈ (generatePKCE randomBytes sha256).codeChallenge, urlSafeChar c) ∧
    base64urlDecode (generatePKCE randomBytes sha256).codeVerifier = randomBytes := by
  refine ⟨rfl, rfl, ?_, ?_, ?_, ?_⟩
  · show (base64urlEncode randomBytes).length = 43
    rw [base64urlEncode_length, hlen]
  · exact fun c hc => base64urlEncode_mem_urlSafe _ c hc
  · exact fun c hc => base64urlEncode_mem_urlSafe _ c hc
  · exact base64urlDecode_encode randomBytes hbytes

/-- Witness for C6 at the byte sequence 0..31 with a mock digest
function. -/
theorem C6_generatePKCE_challenge_witness :
    (generatePKCE (List.range 32) (fun _ => List.range 32)).codeChallenge =
      base64urlEncode ((fun _ => List.range 32)
        ((generatePKCE (List.range 32) (fun _ => List.range 32)).codeVerifier)) ∧
    (generatePKCE (List.range 32) (fun _ => List.range 32)).codeChallengeMethod = "S256" ∧
    (generatePKCE (List.range 32) (fun _ => List.range 32)).codeVerifier.length = 43 ∧
    (∀ c ∈ (generatePKCE (List.range 32) (fun _ => List.range 32)).codeVerifier,
      urlSafeChar c) ∧
    (∀ c ∈ (generatePKCE (List.range 32) (fun _ => List.range 32)).codeChallenge,
      urlSafeChar c) ∧
    base64urlDecode (generatePKCE (List.range 32)
      (fun _ => List.range 32)).codeVerifier = List.range 32 :=
  C6_generatePKCE_challenge (List.range 32) (fun _ => List.range 32)
    (by decide) (by decide)
